import Mathlib

/- Shallow embedding of the CSV ingestion pipeline of the Mexico energy
   demand notebook (`Analysis.ipynb`).  The executable cells embedded here
   are:

     csv_files = glob.glob(os.path.join(DATA_FOLDER, "*.csv"))

     def add_file_name(path):
         df = pd.read_csv(path, skiprows=8)
         df["file_name"] = path
         return df

     for file in csv_files:
         try:    all_dataframes.append(add_file_name(file))
         except Exception as e:  print(f"Failed to read {file}: {e}")

     full_df = pd.concat(all_dataframes, ignore_index=True)

   Text is modelled as lists of characters (`Str`), a CSV file as its list
   of physical lines, and a directory tree as a finite association list from
   directory names to their file listings.  The per-failure printed message
   of the reading loop is modelled as an accumulated diagnostics list of
   (path, error) pairs. -/

abbrev Str := List Char

/-- Split a line at every comma, as the notebook's comma-separated files are
tokenized (the source files use no quoting). -/
def splitComma : Str → List Str
  | [] => [[]]
  | c :: cs =>
    if c = ',' then [] :: splitComma cs
    else
      match splitComma cs with
      | [] => [[c]]
      | r :: rs => (c :: r) :: rs

def isWs (c : Char) : Bool := c = ' ' || c = '\t' || c = '\r' || c = '\n'

def trimLeftL : Str → Str
  | [] => []
  | c :: cs => if isWs c then trimLeftL cs else c :: cs

/-- Strip leading and trailing whitespace from a character list. -/
def trimL (l : Str) : Str := (trimLeftL (trimLeftL l).reverse).reverse

def digitVal (c : Char) : Option Nat :=
  if 48 ≤ c.toNat ∧ c.toNat ≤ 57 then some (c.toNat - 48) else none

def toNatAux : Str → Nat → Option Nat
  | [], acc => some acc
  | c :: cs, acc =>
    match digitVal c with
    | some d => toNatAux cs (acc * 10 + d)
    | none => none

/-- Read a decimal natural number; `none` unless the text is a nonempty
digit string. -/
def toNatL : Str → Option Nat
  | [] => none
  | c :: cs => toNatAux (c :: cs) 0

/-- One file on disk: its name within its directory and its physical lines. -/
structure SrcFile where
  name : Str
  lines : List Str
deriving DecidableEq

/-- A finite filesystem: directory name ↦ the files it contains.  A
directory absent from the list does not exist. -/
abbrev FS := List (Str × List SrcFile)

def lookupDir (fs : FS) (d : Str) : Option (List SrcFile) :=
  (fs.find? (fun p => p.1 == d)).map (fun p => p.2)

/-- All suffixes of a character list, longest first. -/
def suffixesL : List Char → List (List Char)
  | [] => [[]]
  | c :: cs => (c :: cs) :: suffixesL cs

/-- `fnmatch`-style matching restricted to the one metacharacter the
notebook's fixed pattern `*.csv` uses: `*` matches any (possibly empty) run
of characters, every other pattern character is literal. -/
def fnmatchL : List Char → List Char → Bool
  | [], s => s == []
  | p :: ps, s =>
    if p = '*' then (suffixesL s).any (fun t => fnmatchL ps t)
    else
      match s with
      | [] => false
      | c :: cs => p == c && fnmatchL ps cs

/-- glob's hidden-file rule: a name starting with `.` is only matched by a
pattern that itself starts with `.`. -/
def hiddenOk (pat name : Str) : Bool :=
  if name.head? = some '.' then decide (pat.head? = some '.') else true

def globMatch (pat name : Str) : Bool := hiddenOk pat name && fnmatchL pat name

def csvPat : Str := "*.csv".data

/-- `glob.glob(os.path.join(directory, "*.csv"))`: the matching files of the
directory, in listing order; an empty list when the directory has no
matching file or does not exist at all (glob raises nothing). -/
def discover (fs : FS) (dir : Str) : List SrcFile :=
  ((lookupDir fs dir).getD []).filter (fun f => globMatch csvPat f.name)

/-- A pandas DataFrame, stringly typed: column names and cell text. -/
structure DataFrame where
  cols : List Str
  rows : List (List Str)
deriving DecidableEq

def dropBlanks (ls : List Str) : List Str := ls.filter (fun l => l != [])

def nanCell : Str := "NaN".data

def padTo (n : Nat) (r : List Str) : List Str :=
  r ++ List.replicate (n - r.length) nanCell

/-- The field width pandas settles on: the header's field count, unless the
first data row is wider — then that row's width, with the extra leading
columns becoming an implicit index (pandas' index-column inference for a
header with fewer fields than the data, the docs' trailing-delimiter
example). -/
def expectedWidth (hd : Str) (body : List Str) : Nat :=
  match body with
  | [] => (splitComma hd).length
  | r1 :: _ => max (splitComma hd).length (splitComma r1).length

/-- `pd.read_csv(path, skiprows=k)`: drop the first `k` physical lines, skip
blank lines, take the next line as the (verbatim, untrimmed) header, parse
the remaining lines as data rows.  Nothing left after skipping raises
`EmptyDataError`.  The established width is `expectedWidth`: a first data
row wider than the header makes its extra leading cells an implicit index
(no error); a later data row wider than that width raises `ParserError`; a
shorter row is padded at the end with missing values.  Rows are kept as
their non-index data cells (the implicit index cells are dropped, which is
also what the notebook's `pd.concat(..., ignore_index=True)` does with the
index downstream). -/
def read_csv (skiprows : Nat) (ls : List Str) : Except Str DataFrame :=
  match dropBlanks (ls.drop skiprows) with
  | [] => .error "No columns to parse from file".data
  | h :: body =>
    if body.all (fun l => (splitComma l).length ≤ expectedWidth h body) then
      .ok ⟨splitComma h,
           body.map (fun l =>
             (padTo (expectedWidth h body) (splitComma l)).drop
               (expectedWidth h body - (splitComma h).length))⟩
    else .error "Error tokenizing data".data

def fileNameCol : Str := "file_name".data

/-- `df[c] = v`: pandas overwrites every existing column named `c`, and
otherwise appends a new column of that name. -/
def assignColumn (df : DataFrame) (c v : Str) : DataFrame :=
  if c ∈ df.cols then
    ⟨df.cols,
     df.rows.map (fun r =>
       List.zipWith (fun name cell => if name = c then v else cell) df.cols r)⟩
  else
    ⟨df.cols ++ [c], df.rows.map (fun r => r ++ [v])⟩

/-- The notebook's `add_file_name`: read the CSV skipping 8 lines, then tag
every row with the path in a `file_name` column. -/
def add_file_name (path : Str) (ls : List Str) : Except Str DataFrame :=
  (read_csv 8 ls).map (fun df => assignColumn df fileNameCol path)

def joinPath (d n : Str) : Str := d ++ '/' :: n

/-- The notebook's reading loop: each file is parsed inside try/except;
successes are collected in order, and each failure produces exactly one
diagnostic (the printed `Failed to read {file}: {e}` message, modelled as a
(path, error) pair). -/
def readAll (dir : Str) : List SrcFile → List DataFrame × List (Str × Str)
  | [] => ([], [])
  | f :: rest =>
    let done := readAll dir rest
    match add_file_name (joinPath dir f.name) f.lines with
    | .ok df => (df :: done.1, done.2)
    | .error e => (done.1, (joinPath dir f.name, e) :: done.2)

def dedupFirstAux (seen : List Str) : List Str → List Str
  | [] => []
  | c :: cs =>
    if seen.contains c then dedupFirstAux seen cs
    else c :: dedupFirstAux (seen ++ [c]) cs

/-- Keep the first occurrence of every element, drop later duplicates. -/
def dedupFirst (l : List Str) : List Str := dedupFirstAux [] l

/-- Index of the first occurrence of a column name. -/
def firstIdx (c : Str) : List Str → Option Nat
  | [] => none
  | x :: xs => if x = c then some 0 else (firstIdx c xs).map (· + 1)

/-- Align one row of a DataFrame with columns `src` to the column union
`tgt`, filling columns the frame lacks with NaN. -/
def reindexRow (src tgt : List Str) (r : List Str) : List Str :=
  tgt.map (fun c =>
    match firstIdx c src with
    | some i => (r[i]?).getD nanCell
    | none => nanCell)

/-- `pd.concat(dfs, ignore_index=True)`: raises `ValueError` on an empty
list; otherwise the result's columns are the union of the inputs' columns in
order of first appearance and every input row is reindexed to that union. -/
def concatDfs : List DataFrame → Except Str DataFrame
  | [] => .error "No objects to concatenate".data
  | d :: ds =>
    let cols := dedupFirst (((d :: ds).map DataFrame.cols).flatten)
    .ok ⟨cols, (d :: ds).flatMap (fun x => x.rows.map (reindexRow x.cols cols))⟩

/-- The whole ingestion: discover, parse each file catching failures, concat.
The spec's `build(directory)`. -/
def build (fs : FS) (dir : Str) : Except Str (DataFrame × List (Str × Str)) :=
  let done := readAll dir (discover fs dir)
  (concatDfs done.1).map (fun d => (d, done.2))

/-- Value of a row at the first column of a given name. -/
def colVal (cols : List Str) (c : Str) (r : List Str) : Option Str :=
  (firstIdx c cols).bind (fun i => r[i]?)

/-- The spec's expected header names (after whitespace trimming): the 8
CENACE columns. -/
def expectedCols : List Str :=
  ["Sistema".data, "Area".data, "Hora".data, "Generacion (MWh)".data,
   "Importacion Total (MWh)".data, "Exportacion Total (MWh)".data,
   "Intercambio neto entre Gerencias (MWh)".data,
   "Estimacion de Demanda por Balance (MWh)".data]

/-- The hour-of-day of a record row: the third column, read as a decimal
number. -/
def rowHour (r : List Str) : Option Nat := (r[2]?).bind (fun s => toNatL (trimL s))

def hourOkB (l : Str) : Bool :=
  match rowHour (splitComma l) with
  | some k => decide (1 ≤ k) && decide (k ≤ 24)
  | none => false

/-- A valid input file in the sense of the spec: 8 leading metadata lines,
then the 8-column CENACE header (names may carry stray whitespace), then
data rows of exactly 8 fields whose hour field is in [1,24]; no blank lines
after the metadata. -/
def validFile (ls : List Str) : Bool :=
  match ls.drop 8 with
  | [] => false
  | h :: body =>
    (h :: body).all (fun l => l != []) &&
    ((splitComma h).map trimL == expectedCols) &&
    body.all (fun l => (splitComma l).length == 8 && hourOkB l)

/- ---------------------------------------------------------------------
   The `normalize` operation.  The notebook only plans this step (the Data
   Cleaning section is an empty markdown placeholder noting the intent to
   change "---" to np.nan), so it is modelled from the spec. -/

/-- Modelled from the spec: a Record of the cleaned dataset (spec §3) —
region code, sub-area code, hour-of-day, the four MWh quantities kept as
their source text, net inter-region exchange optionally missing, and the
source file reference.  The notebook never implements this record type;
only its narrative describes it. -/
structure SpecRecord where
  region : Str
  subArea : Str
  hour : Nat
  generation : Str
  importsTotal : Str
  exportsTotal : Str
  netExchange : Option Str
  demand : Str
  sourceFile : Str
deriving DecidableEq

/-- The sentinel token `---` meaning "no value" in the net-exchange field. -/
def sentinel : Str := "---".data

def normalizeCell (c : Option Str) : Option Str :=
  if c = some sentinel then none else c

/-- Modelled from the spec: `normalize(dataset)` (spec §4.1 op 4) replaces
every occurrence of the sentinel token in the net-exchange field by the
missing-value marker and leaves every other field untouched.  The notebook
contains no implementation of this step.  (The spec name `normalize` is taken by Mathlib, hence the longer Lean name.) -/
def normalizeDataset (d : List SpecRecord) : List SpecRecord :=
  d.map (fun r => { r with netExchange := normalizeCell r.netExchange })

/- ---------------------------------------------------------------------
   Concrete sample data, used to evaluate the theorems below on closed
   inputs. -/

def metaLs : List Str := List.replicate 8 "metadata".data

/-- The header line of the observed CENACE format, stray whitespace
included (as printed by `full_df.columns` in the notebook). -/
def hdr8 : Str := ("Sistema, Area, Hora, Generacion (MWh), Importacion Total (MWh)," ++
  " Exportacion Total (MWh), Intercambio neto entre Gerencias (MWh)," ++
  " Estimacion de Demanda por Balance (MWh) ").data

def hoursL : List Str :=
  ["1".data, "2".data, "3".data, "4".data, "5".data, "6".data, "7".data,
   "8".data, "9".data, "10".data, "11".data, "12".data, "13".data, "14".data,
   "15".data, "16".data, "17".data, "18".data, "19".data, "20".data,
   "21".data, "22".data, "23".data, "24".data]

def rowA (h : Str) : Str :=
  "BCA,BCA,".data ++ h ++ ",1036.0,22.1,20.9,---,1037.1".data

def bodyA : List Str := hdr8 :: hoursL.map rowA

/-- A well-formed 33-line file: 8 metadata lines, the header, 24 data rows. -/
def fileA : SrcFile := ⟨"a.csv".data, metaLs ++ bodyA⟩

/-- A malformed file: nothing is left after skipping 8 lines. -/
def fileB : SrcFile := ⟨"b.csv".data, ["just one line".data]⟩

def fsAB : FS := [("d".data, [fileA, fileB])]

def pathA : Str := joinPath "d".data "a.csv".data

def dfAB : DataFrame :=
  match build fsAB "d".data with
  | .ok p => p.1
  | .error _ => ⟨[], []⟩

def diagsAB : List (Str × Str) :=
  match build fsAB "d".data with
  | .ok p => p.2
  | .error _ => []

def dfA : DataFrame :=
  match add_file_name pathA fileA.lines with
  | .ok df => df
  | .error _ => ⟨[], []⟩

/-- A file whose 9th line has 2 columns, not 8, and whose data rows agree
with that header. -/
def schemaTwoFile : List Str := metaLs ++ ["a,b".data, "1,2".data]

/-- A readable file that already carries a `file_name` column of its own. -/
def fileNameClashFile : List Str := metaLs ++ ["a,file_name".data, "1,orig".data]

def dfClash : DataFrame :=
  match add_file_name "p".data fileNameClashFile with
  | .ok df => df
  | .error _ => ⟨[], []⟩

/-- A directory that exists but holds no files at all. -/
def fsEmptyDir : FS := [("d".data, [])]

/-- The pandas documentation's "index columns and trailing delimiters"
example (3-name header, every data row 4 fields), behind 8 metadata
lines. -/
def trailingDelimFile : List Str :=
  metaLs ++ ["a,b,c".data, "4,apple,bat,5.7".data, "8,orange,cow,10".data]

/- ---------------------------------------------------------------------
   Helper lemmas. -/

theorem firstIdx_some_getElem {c : Str} {l : List Str} {i : Nat}
    (h : firstIdx c l = some i) : l[i]? = some c := by
  induction l generalizing i with
  | nil => simp [firstIdx] at h
  | cons x xs ih =>
    simp only [firstIdx] at h
    by_cases hx : x = c
    · simp [hx] at h
      simp [← h, hx]
    · simp only [if_neg hx] at h
      cases hfi : firstIdx c xs with
      | none => rw [hfi] at h; simp at h
      | some j =>
        rw [hfi] at h
        simp at h
        subst h
        simpa using ih hfi

theorem exists_firstIdx_of_mem {c : Str} {l : List Str} (h : c ∈ l) :
    ∃ i, firstIdx c l = some i := by
  induction l with
  | nil => simp at h
  | cons x xs ih =>
    by_cases hx : x = c
    · exact ⟨0, by simp [firstIdx, hx]⟩
    · have hm : c ∈ xs := by
        rcases List.mem_cons.mp h with h1 | h1
        · exact absurd h1.symm hx
        · exact h1
      rcases ih hm with ⟨i, hi⟩
      exact ⟨i + 1, by simp [firstIdx, hx, hi]⟩

theorem firstIdx_append_self {c : Str} {l : List Str} (h : c ∉ l) :
    firstIdx c (l ++ [c]) = some l.length := by
  induction l with
  | nil => simp [firstIdx]
  | cons x xs ih =>
    have hx : x ≠ c := fun he => h (by simp [he])
    have hm : c ∉ xs := fun hm => h (by simp [hm])
    simp [firstIdx, hx, ih hm]

theorem mem_dedupFirstAux {x : Str} (seen l : List Str) :
    x ∈ dedupFirstAux seen l ↔ x ∈ l ∧ x ∉ seen := by
  induction l generalizing seen with
  | nil => simp [dedupFirstAux]
  | cons c cs ih =>
    simp only [dedupFirstAux]
    by_cases hc : seen.contains c
    · rw [if_pos hc]
      have hcm : c ∈ seen := by simpa using hc
      rw [ih seen]
      constructor
      · rintro ⟨h1, h2⟩; exact ⟨by simp [h1], h2⟩
      · rintro ⟨h1, h2⟩
        rcases List.mem_cons.mp h1 with h1 | h1
        · exact absurd (h1 ▸ hcm) h2
        · exact ⟨h1, h2⟩
    · rw [if_neg hc]
      have hcm : c ∉ seen := by simpa using hc
      constructor
      · intro hmem
        rcases List.mem_cons.mp hmem with h1 | h1
        · exact ⟨by simp [h1], h1 ▸ hcm⟩
        · rcases (ih (seen ++ [c])).mp h1 with ⟨h2, h3⟩
          refine ⟨by simp [h2], fun hx => h3 (by simp [hx])⟩
      · rintro ⟨h1, h2⟩
        rcases List.mem_cons.mp h1 with h1 | h1
        · exact h1 ▸ List.mem_cons_self _ _
        · by_cases hxc : x = c
          · exact hxc ▸ List.mem_cons_self _ _
          · refine List.mem_cons_of_mem _ ((ih (seen ++ [c])).mpr ⟨h1, ?_⟩)
            intro hx
            rcases List.mem_append.mp hx with hx | hx
            · exact h2 hx
            · exact hxc (by simpa using hx)

theorem mem_dedupFirst {x : Str} {l : List Str} : x ∈ dedupFirst l ↔ x ∈ l := by
  simp [dedupFirst, mem_dedupFirstAux]

theorem readAll_fst (dir : Str) (files : List SrcFile) :
    (readAll dir files).1 =
      files.filterMap (fun f => (add_file_name (joinPath dir f.name) f.lines).toOption) := by
  induction files with
  | nil => rfl
  | cons f rest ih =>
    simp only [readAll, List.filterMap_cons]
    cases h : add_file_name (joinPath dir f.name) f.lines with
    | ok df => simp [Except.toOption, ih]
    | error e => simp [Except.toOption, ih]

theorem readAll_snd (dir : Str) (files : List SrcFile) :
    (readAll dir files).2 =
      files.filterMap (fun f =>
        match add_file_name (joinPath dir f.name) f.lines with
        | .ok _ => none
        | .error e => some (joinPath dir f.name, e)) := by
  induction files with
  | nil => rfl
  | cons f rest ih =>
    simp only [readAll, List.filterMap_cons]
    cases h : add_file_name (joinPath dir f.name) f.lines with
    | ok df => simp [ih]
    | error e => simp [ih]

theorem concatDfs_ok_inv {ds : List DataFrame} {d : DataFrame}
    (h : concatDfs ds = .ok d) :
    ∃ x rest, ds = x :: rest ∧
      d.cols = dedupFirst ((ds.map DataFrame.cols).flatten) ∧
      d.rows = ds.flatMap (fun x => x.rows.map (reindexRow x.cols d.cols)) := by
  cases ds with
  | nil => simp [concatDfs] at h
  | cons x rest =>
    refine ⟨x, rest, rfl, ?_⟩
    simp only [concatDfs] at h
    cases h
    simp

theorem concatDfs_rows_length {ds : List DataFrame} {d : DataFrame}
    (h : concatDfs ds = .ok d) :
    d.rows.length = (ds.map (fun x => x.rows.length)).sum := by
  rcases concatDfs_ok_inv h with ⟨x, rest, hds, hcols, hrows⟩
  rw [hrows, List.length_flatMap]
  congr 1
  simp

theorem build_ok_inv {fs : FS} {dir : Str} {d : DataFrame} {diags : List (Str × Str)}
    (h : build fs dir = .ok (d, diags)) :
    concatDfs (readAll dir (discover fs dir)).1 = .ok d ∧
      diags = (readAll dir (discover fs dir)).2 := by
  simp only [build] at h
  cases hc : concatDfs (readAll dir (discover fs dir)).1 with
  | ok x =>
    rw [hc] at h
    simp only [Except.map] at h
    cases h
    exact ⟨rfl, rfl⟩
  | error e =>
    rw [hc] at h
    simp [Except.map] at h

theorem expectedWidth_ge {hd : Str} {body : List Str} :
    (splitComma hd).length ≤ expectedWidth hd body := by
  cases body with
  | nil => exact le_refl _
  | cons r1 rest => exact le_max_left _ _

theorem read_csv_ok_inv {k : Nat} {ls : List Str} {df : DataFrame}
    (h : read_csv k ls = .ok df) :
    ∃ hd body, dropBlanks (ls.drop k) = hd :: body ∧
      df.cols = splitComma hd ∧
      df.rows = body.map (fun l =>
        (padTo (expectedWidth hd body) (splitComma l)).drop
          (expectedWidth hd body - (splitComma hd).length)) ∧
      ∀ l ∈ body, (splitComma l).length ≤ expectedWidth hd body := by
  unfold read_csv at h
  split at h
  next heq => exact absurd h (by simp)
  next hd body heq =>
    split at h
    next hall =>
      cases h
      exact ⟨hd, body, heq, rfl, rfl,
        fun l hl => of_decide_eq_true (List.all_eq_true.mp hall l hl)⟩
    next hall => exact absurd h (by simp)

theorem read_csv_isOk_iff {k : Nat} {ls : List Str} :
    (read_csv k ls).isOk = true ↔
      ∃ hd body, dropBlanks (ls.drop k) = hd :: body ∧
        ∀ l ∈ body, (splitComma l).length ≤ expectedWidth hd body := by
  constructor
  · intro h
    cases he : read_csv k ls with
    | error e => rw [he] at h; simp [Except.isOk, Except.toBool] at h
    | ok df =>
      rcases read_csv_ok_inv he with ⟨hd, body, h1, _, _, h4⟩
      exact ⟨hd, body, h1, h4⟩
  · rintro ⟨hd, body, h1, h2⟩
    unfold read_csv
    rw [h1]
    dsimp only
    rw [if_pos (List.all_eq_true.mpr (fun l hl => decide_eq_true (h2 l hl)))]
    rfl

theorem padTo_length {n : Nat} {r : List Str} (h : r.length ≤ n) :
    (padTo n r).length = n := by
  simp [padTo]
  omega

theorem read_csv_row_length {k : Nat} {ls : List Str} {df : DataFrame}
    (h : read_csv k ls = .ok df) :
    ∀ r ∈ df.rows, r.length = df.cols.length := by
  rcases read_csv_ok_inv h with ⟨hd, body, _, hcols, hrows, hle⟩
  intro r hr
  rw [hrows] at hr
  rcases List.mem_map.mp hr with ⟨l, hl, rfl⟩
  rw [hcols]
  rw [List.length_drop, padTo_length (hle l hl)]
  have hge : (splitComma hd).length ≤ expectedWidth hd body := expectedWidth_ge
  omega

/-- Sanity check of the width rule against pandas' own documentation
example: data rows uniformly one field wider than the header parse
successfully, the extra leading cell becoming the implicit index (dropped
from the data cells), exactly as `pd.read_csv` does with its default
`index_col=None`. -/
theorem read_csv_implicit_index_ok :
    read_csv 8 trailingDelimFile =
      .ok ⟨["a".data, "b".data, "c".data],
           [["apple".data, "bat".data, "5.7".data],
            ["orange".data, "cow".data, "10".data]]⟩ := rfl

/-- When every data row has exactly the header's field count, no implicit
index arises and the rows are the split lines themselves. -/
theorem read_csv_uniform {k : Nat} {ls : List Str} {hd : Str} {body : List Str}
    (hdb : dropBlanks (ls.drop k) = hd :: body)
    (huni : ∀ l ∈ body, (splitComma l).length = (splitComma hd).length) :
    read_csv k ls = .ok ⟨splitComma hd, body.map splitComma⟩ := by
  have hEW : expectedWidth hd body = (splitComma hd).length := by
    cases body with
    | nil => rfl
    | cons r1 rest =>
      show max (splitComma hd).length (splitComma r1).length = _
      rw [huni r1 (List.mem_cons_self _ _)]
      exact Nat.max_self _
  unfold read_csv
  rw [hdb]
  dsimp only
  rw [if_pos (List.all_eq_true.mpr
    (fun l hl => decide_eq_true (le_of_eq ((huni l hl).trans hEW.symm))))]
  congr 1
  simp only [DataFrame.mk.injEq, true_and]
  refine List.map_congr_left ?_
  intro l hl
  rw [hEW, Nat.sub_self, List.drop_zero, padTo, huni l hl, Nat.sub_self]
  simp

theorem assign_cols {df : DataFrame} {c v : Str} :
    (assignColumn df c v).cols = df.cols ∨
      (assignColumn df c v).cols = df.cols ++ [c] := by
  by_cases h : c ∈ df.cols
  · left; simp [assignColumn, h]
  · right; simp [assignColumn, h]

theorem assign_mem_cols {df : DataFrame} {c v : Str} :
    c ∈ (assignColumn df c v).cols := by
  by_cases h : c ∈ df.cols
  · simp [assignColumn, h]
  · simp [assignColumn, h]

theorem assign_mem_cols_of_mem {df : DataFrame} {c v s : Str} (h : s ∈ df.cols) :
    s ∈ (assignColumn df c v).cols := by
  rcases @assign_cols df c v with hc | hc <;> rw [hc] <;> simp [h]

theorem assign_rows_length {df : DataFrame} {c v : Str}
    (hlen : ∀ r ∈ df.rows, r.length = df.cols.length) :
    ∀ r ∈ (assignColumn df c v).rows,
      r.length = (assignColumn df c v).cols.length := by
  intro r hr
  by_cases h : c ∈ df.cols
  · simp only [assignColumn, if_pos h] at hr ⊢
    rcases List.mem_map.mp hr with ⟨r0, hr0, rfl⟩
    rw [List.length_zipWith, hlen r0 hr0]
    simp
  · simp only [assignColumn, if_neg h] at hr ⊢
    rcases List.mem_map.mp hr with ⟨r0, hr0, rfl⟩
    simp [hlen r0 hr0]

theorem assign_colVal {df : DataFrame} {c v : Str}
    (hlen : ∀ r ∈ df.rows, r.length = df.cols.length) :
    ∀ r ∈ (assignColumn df c v).rows,
      colVal (assignColumn df c v).cols c r = some v := by
  intro r hr
  by_cases h : c ∈ df.cols
  · simp only [assignColumn, if_pos h] at hr ⊢
    rcases List.mem_map.mp hr with ⟨r0, hr0, rfl⟩
    rcases exists_firstIdx_of_mem h with ⟨i, hi⟩
    have hci : df.cols[i]? = some c := firstIdx_some_getElem hi
    have hilt : i < df.cols.length := (List.getElem?_eq_some.mp hci).1
    have hlt : i < r0.length := by rw [hlen r0 hr0]; exact hilt
    have hr0i : r0[i]? = some (r0.get ⟨i, hlt⟩) := List.getElem?_eq_getElem hlt
    simp only [colVal, hi, Option.some_bind]
    rw [List.getElem?_zipWith, hci, hr0i]
    simp
  · simp only [assignColumn, if_neg h] at hr ⊢
    rcases List.mem_map.mp hr with ⟨r0, hr0, rfl⟩
    have hfi : firstIdx c (df.cols ++ [c]) = some df.cols.length :=
      firstIdx_append_self h
    simp only [colVal, hfi, Option.some_bind]
    rw [← hlen r0 hr0]
    simp

theorem colVal_reindex {src tgt : List Str} {r : List Str} {c v : Str}
    (hc : c ∈ tgt) (h : colVal src c r = some v) :
    colVal tgt c (reindexRow src tgt r) = some v := by
  rcases exists_firstIdx_of_mem hc with ⟨j, hj⟩
  have hcj : tgt[j]? = some c := firstIdx_some_getElem hj
  rcases Option.bind_eq_some.mp h with ⟨i, hi, hri⟩
  simp only [colVal, hj, Option.some_bind, reindexRow]
  rw [List.getElem?_map, hcj]
  simp only [Option.map_some']
  rw [hi]
  simp [hri]

theorem mem_suffixesL {t s : List Char} : t ∈ suffixesL s ↔ t <:+ s := by
  induction s with
  | nil => simp [suffixesL]
  | cons c cs ih =>
    simp only [suffixesL, List.mem_cons]
    constructor
    · rintro (rfl | h)
      · exact List.suffix_refl _
      · exact (ih.mp h).trans (List.suffix_cons c cs)
    · rintro ⟨pre, hpre⟩
      cases pre with
      | nil => left; simpa using hpre
      | cons x xs =>
        right
        refine ih.mpr ⟨xs, ?_⟩
        have := hpre
        injection this with h1 h2

theorem fnmatch_star_iff {ps : List Char} {s : List Char} :
    fnmatchL ('*' :: ps) s = true ↔ ∃ t, t <:+ s ∧ fnmatchL ps t = true := by
  show ((suffixesL s).any (fun t => fnmatchL ps t)) = true ↔ _
  rw [List.any_eq_true]
  constructor
  · rintro ⟨t, ht, hf⟩
    exact ⟨t, mem_suffixesL.mp ht, hf⟩
  · rintro ⟨t, ht, hf⟩
    exact ⟨t, mem_suffixesL.mpr ht, hf⟩

theorem fnmatch_literal {ps s : List Char} (h : '*' ∉ ps) :
    fnmatchL ps s = true ↔ s = ps := by
  induction ps generalizing s with
  | nil =>
    cases s <;> simp [fnmatchL]
  | cons p pt ih =>
    have hp : p ≠ '*' := fun he => h (by simp [he])
    have hpt : '*' ∉ pt := fun hm => h (by simp [hm])
    cases s with
    | nil => simp [fnmatchL, if_neg hp]
    | cons c cs =>
      simp only [fnmatchL, if_neg hp, Bool.and_eq_true, beq_iff_eq]
      rw [ih hpt]
      constructor
      · rintro ⟨rfl, rfl⟩; rfl
      · intro he
        injection he with h1 h2
        exact ⟨h1.symm, h2⟩

theorem globMatch_csv_iff {n : Str} :
    globMatch csvPat n = true ↔ n.head? ≠ some '.' ∧ ".csv".data <:+ n := by
  have hstar : '*' ∉ ".csv".data := by decide
  show (hiddenOk csvPat n && fnmatchL ('*' :: ".csv".data) n) = true ↔ _
  rw [Bool.and_eq_true, fnmatch_star_iff]
  constructor
  · rintro ⟨h1, t, ht, hfm⟩
    have hts := (fnmatch_literal hstar).mp hfm
    subst hts
    refine ⟨?_, ht⟩
    intro hh
    rw [hiddenOk, if_pos hh] at h1
    exact absurd (of_decide_eq_true h1) (by decide)
  · rintro ⟨h1, h2⟩
    refine ⟨?_, ".csv".data, h2, (fnmatch_literal hstar).mpr rfl⟩
    rw [hiddenOk, if_neg h1]

theorem except_isOk_map {ε α β : Type} (f : α → β) (e : Except ε α) :
    (e.map f).isOk = e.isOk := by
  cases e <;> rfl

theorem concatDfs_isOk_iff {ds : List DataFrame} :
    (concatDfs ds).isOk = true ↔ ds ≠ [] := by
  cases ds <;> simp [concatDfs, Except.isOk, Except.toBool]

theorem toOption_ne_none {ε α : Type} (e : Except ε α) :
    e.toOption ≠ none ↔ e.isOk = true := by
  cases e <;> simp [Except.toOption, Except.isOk, Except.toBool]

theorem add_file_name_ok_inv {p : Str} {ls : List Str} {df : DataFrame}
    (h : add_file_name p ls = .ok df) :
    ∃ df0, read_csv 8 ls = .ok df0 ∧ df = assignColumn df0 fileNameCol p := by
  unfold add_file_name at h
  cases he : read_csv 8 ls with
  | error e => rw [he] at h; simp [Except.map] at h
  | ok df0 =>
    rw [he] at h
    simp only [Except.map, Except.ok.injEq] at h
    exact ⟨df0, rfl, h.symm⟩

theorem flatMap_filterMap {α β γ : Type} (g : α → Option β) (k : β → List γ)
    (l : List α) :
    (l.filterMap g).flatMap k =
      l.flatMap (fun a => match g a with | some b => k b | none => []) := by
  induction l with
  | nil => rfl
  | cons a t ih =>
    simp only [List.filterMap_cons]
    cases h : g a with
    | none => simp only [List.flatMap_cons, h, ih, List.nil_append]
    | some b => simp only [List.flatMap_cons, h, ih]

/- ---------------------------------------------------------------------
   Claim theorems. -/

/-- C1: for every input directory on which `build` returns a Dataset, its
row count equals the sum of the `parse` row counts over exactly the
discovered files whose parse did not fail; no row of a successfully parsed
file is dropped. -/
theorem build_row_count (fs : FS) (dir : Str) (d : DataFrame)
    (diags : List (Str × Str)) (h : build fs dir = .ok (d, diags)) :
    d.rows.length =
      (((discover fs dir).filterMap
          (fun f => (add_file_name (joinPath dir f.name) f.lines).toOption)).map
        (fun df => df.rows.length)).sum := by
  rcases build_ok_inv h with ⟨hc, _⟩
  rw [← readAll_fst]
  exact concatDfs_rows_length hc

/-- C1 witness: the concrete two-file directory `fsAB`. -/
theorem build_row_count_witness :
    dfAB.rows.length = 24 ∧
      dfAB.rows.length =
        (((discover fsAB "d".data).filterMap
            (fun f => (add_file_name (joinPath "d".data f.name) f.lines).toOption)).map
          (fun df => df.rows.length)).sum :=
  ⟨by set_option maxRecDepth 100000 in decide,
   build_row_count fsAB "d".data dfAB diagsAB rfl⟩

/-- C2: `build` catches every per-file parse failure at the file boundary,
keeps processing the remaining files, and the accumulated diagnostics list
has exactly one (file, error) entry per failed discovered file, in order. -/
theorem build_diagnostics (fs : FS) (dir : Str) (d : DataFrame)
    (diags : List (Str × Str)) (h : build fs dir = .ok (d, diags)) :
    diags = (discover fs dir).filterMap
      (fun f => match add_file_name (joinPath dir f.name) f.lines with
        | .ok _ => none
        | .error e => some (joinPath dir f.name, e)) := by
  rcases build_ok_inv h with ⟨_, hd2⟩
  rw [hd2, readAll_snd]

/-- C2 witness: file A with 24 valid rows and malformed file B give a
24-record Dataset and exactly one diagnostic entry referencing B. -/
theorem build_diagnostics_witness :
    dfAB.rows.length = 24 ∧
      diagsAB = [(joinPath "d".data "b.csv".data,
        "No columns to parse from file".data)] ∧
      diagsAB = (discover fsAB "d".data).filterMap
        (fun f => match add_file_name (joinPath "d".data f.name) f.lines with
          | .ok _ => none
          | .error e => some (joinPath "d".data f.name, e)) :=
  ⟨by set_option maxRecDepth 100000 in decide,
   by set_option maxRecDepth 100000 in decide,
   build_diagnostics fsAB "d".data dfAB diagsAB rfl⟩

/-- C6 counterexample: on a directory with zero files, `build` does not
produce an empty Dataset — `pd.concat` of an empty list raises. -/
theorem build_empty_dir_fails :
    discover fsEmptyDir "d".data = [] ∧
      build fsEmptyDir "d".data = .error "No objects to concatenate".data :=
  ⟨rfl, rfl⟩

/-- C6 amended: `build` succeeds exactly when at least one discovered file
parses successfully; with zero files (or all files failing) it raises the
`pd.concat` "No objects to concatenate" error. -/
theorem build_isOk_iff (fs : FS) (dir : Str) :
    (build fs dir).isOk = true ↔
      ∃ f ∈ discover fs dir,
        (add_file_name (joinPath dir f.name) f.lines).isOk = true := by
  simp only [build]
  rw [except_isOk_map, concatDfs_isOk_iff, readAll_fst]
  constructor
  · intro h
    by_contra hno
    push_neg at hno
    refine h (List.filterMap_eq_nil_iff.mpr ?_)
    intro f hf
    by_contra hne
    exact absurd ((toOption_ne_none _).mp hne)
      (by simpa using hno f hf)
  · rintro ⟨f, hf, hok⟩ hnil
    exact (toOption_ne_none _).mpr hok (List.filterMap_eq_nil_iff.mp hnil f hf)

/-- C7 counterexample: `discover` on a directory that does not exist
returns the empty sequence, it does not fail with an IOError (glob raises
nothing). -/
theorem discover_missing_dir_empty :
    lookupDir ([] : FS) "nodir".data = none ∧
      discover ([] : FS) "nodir".data = [] :=
  ⟨rfl, rfl⟩

/-- C7 amended: `discover(directory)` returns exactly the files of the
directory matched by the glob pattern `*.csv` — name ends in `.csv` and is
not dot-hidden — with no recursion; it returns the empty sequence both when
no file matches and when the directory does not exist (no IOError is
raised). -/
theorem discover_glob_spec (fs : FS) (dir : Str) (f : SrcFile) :
    f ∈ discover fs dir ↔
      (∃ L, lookupDir fs dir = some L ∧ f ∈ L) ∧
        f.name.head? ≠ some '.' ∧ ".csv".data <:+ f.name := by
  simp only [discover, List.mem_filter]
  cases hl : lookupDir fs dir with
  | none => simp
  | some L => simp [globMatch_csv_iff, and_assoc]

/-- C3 counterexample: a file whose 9th line has 2 columns (not 8) parses
without any error — `pd.read_csv` never checks for an 8-column schema. -/
theorem parse_two_col_file_ok :
    (schemaTwoFile[8]?).map (fun l => (splitComma l).length) = some 2 ∧
      (add_file_name "p".data schemaTwoFile).isOk = true := by
  constructor
  · decide
  · decide

/-- C3 amended: `parse` fails exactly when nothing (but blank lines) is
left after skipping the 8 leading lines — in particular for every file with
fewer than 9 lines — or when some data row has more fields than the
established width, the larger of the header's and the first data row's
field counts (a first data row wider than the header triggers pandas'
implicit index-column inference, not an error); it performs no 8-column
schema check, so a file whose 9th line has a column count other than 8
parses successfully as long as no data row exceeds that width. -/
theorem parse_isOk_iff (p : Str) (ls : List Str) :
    (add_file_name p ls).isOk = true ↔
      ∃ hd body, dropBlanks (ls.drop 8) = hd :: body ∧
        ∀ l ∈ body, (splitComma l).length ≤ expectedWidth hd body := by
  unfold add_file_name
  rw [except_isOk_map]
  exact read_csv_isOk_iff

/-- C4 counterexample: the header names are taken verbatim, whitespace
included — the parsed Dataset of the observed CENACE format carries the
column name " Hora" (leading space) and no trimmed "Hora" column. -/
theorem parse_cols_keep_whitespace :
    " Hora".data ∈ dfA.cols ∧ "Hora".data ∉ dfA.cols := by
  constructor
  · decide
  · decide

/-- C4 amended: `parse` skips exactly the 8 leading metadata lines — their
content is irrelevant to the result — and then uses the 9th (first
non-blank remaining) line as the header with every column name kept
verbatim: names are not trimmed, so stray leading/trailing whitespace
survives into the Dataset. -/
theorem parse_skips_8_keeps_names (p : Str) (pre1 pre2 ls : List Str)
    (h1 : pre1.length = 8) (h2 : pre2.length = 8) :
    add_file_name p (pre1 ++ ls) = add_file_name p (pre2 ++ ls) ∧
      ∀ df, add_file_name p (pre1 ++ ls) = .ok df →
        ∀ hd body, dropBlanks ls = hd :: body →
          ∀ s ∈ splitComma hd, s ∈ df.cols := by
  have hdrop1 : (pre1 ++ ls).drop 8 = ls := by rw [← h1]; exact List.drop_left _ _
  have hdrop2 : (pre2 ++ ls).drop 8 = ls := by rw [← h2]; exact List.drop_left _ _
  constructor
  · unfold add_file_name read_csv
    rw [hdrop1, hdrop2]
  · intro df hdf hd body hb s hs
    rcases add_file_name_ok_inv hdf with ⟨df0, hread, rfl⟩
    rcases read_csv_ok_inv hread with ⟨hd2, body2, hb2, hcols, _, _⟩
    rw [hdrop1, hb] at hb2
    injection hb2 with hb3 _
    refine assign_mem_cols_of_mem ?_
    rw [hcols, ← hb3]
    exact hs

def metaXs : List Str := List.replicate 8 "other".data

set_option maxRecDepth 100000 in
/-- C4 witness: the metadata lines of the sample file can be replaced by
any other 8 lines without changing the parse, and the untrimmed name
" Hora" of the sample header lands in the parsed columns. -/
theorem parse_skips_8_keeps_names_witness :
    add_file_name pathA (metaLs ++ bodyA) = add_file_name pathA (metaXs ++ bodyA) ∧
      " Hora".data ∈ dfA.cols :=
  ⟨(parse_skips_8_keeps_names pathA metaLs metaXs bodyA rfl rfl).1,
   (parse_skips_8_keeps_names pathA metaLs metaXs bodyA rfl rfl).2
     dfA rfl hdr8 (hoursL.map rowA) (by decide) " Hora".data (by decide)⟩

/-- C5 amended: for a valid input file — 8 metadata lines, the 8-column
CENACE header, then data rows with hour in [1,24] — `parse` produces
exactly (line count − 9) Records (the 8 metadata lines AND the header row
are not records), each with hour-of-day in [1,24]. -/
theorem parse_valid_file (p : Str) (ls : List Str) (hv : validFile ls = true) :
    ∃ df, add_file_name p ls = .ok df ∧
      df.rows.length = ls.length - 9 ∧
      ∀ r ∈ df.rows, ∃ k, rowHour r = some k ∧ 1 ≤ k ∧ k ≤ 24 := by
  unfold validFile at hv
  split at hv
  next heq => exact absurd hv (by simp)
  next hd body heq =>
    rw [Bool.and_eq_true, Bool.and_eq_true] at hv
    obtain ⟨⟨hnb, htrimb⟩, hbody⟩ := hv
    have htrim : (splitComma hd).map trimL = expectedCols := by simpa using htrimb
    have hlen8 : (splitComma hd).length = 8 := by
      have hc := congrArg List.length htrim
      simpa using hc
    have hdb : dropBlanks (ls.drop 8) = hd :: body := by
      rw [heq]
      exact List.filter_eq_self.mpr (List.all_eq_true.mp hnb)
    have hbody2 : ∀ l ∈ body, (splitComma l).length = 8 ∧ hourOkB l = true := by
      intro l hl
      have hx := List.all_eq_true.mp hbody l hl
      rw [Bool.and_eq_true] at hx
      exact ⟨by simpa using hx.1, hx.2⟩
    have hread : read_csv 8 ls = .ok ⟨splitComma hd, body.map splitComma⟩ :=
      read_csv_uniform hdb (fun l hl => (hbody2 l hl).1.trans hlen8.symm)
    have hfn : fileNameCol ∉ splitComma hd := by
      intro hmem
      have h1 : trimL fileNameCol ∈ (splitComma hd).map trimL :=
        List.mem_map_of_mem _ hmem
      rw [htrim] at h1
      have h2 : trimL fileNameCol = fileNameCol := by decide
      rw [h2] at h1
      exact absurd h1 (by decide)
    have hlendrop : ls.length - 8 = body.length + 1 := by
      have hc := congrArg List.length heq
      rw [List.length_drop] at hc
      simpa using hc
    refine ⟨assignColumn ⟨splitComma hd, body.map splitComma⟩ fileNameCol p,
      ?_, ?_, ?_⟩
    · unfold add_file_name
      rw [hread]
      rfl
    · simp only [assignColumn, if_neg hfn, List.length_map]
      omega
    · intro r hr
      simp only [assignColumn, if_neg hfn, List.map_map] at hr
      rcases List.mem_map.mp hr with ⟨l, hl, rfl⟩
      obtain ⟨hl8, hok⟩ := hbody2 l hl
      have hidx : (splitComma l ++ [p])[2]? = (splitComma l)[2]? :=
        List.getElem?_append_left (by rw [hl8]; norm_num)
      unfold hourOkB at hok
      cases hk : rowHour (splitComma l) with
      | none => rw [hk] at hok; simp at hok
      | some k =>
        rw [hk] at hok
        simp only [Bool.and_eq_true, decide_eq_true_eq] at hok
        refine ⟨k, ?_, hok.1, hok.2⟩
        unfold rowHour at hk ⊢
        simp only [Function.comp]
        rw [hidx]
        exact hk

set_option maxRecDepth 100000 in
/-- C5 counterexample: the valid 33-line sample file (8 metadata lines, a
header, 24 data rows) yields 24 records — not 33 − 8 = 25 as the claim
states: the header row is consumed on top of the 8 skipped lines. -/
theorem parse_valid_row_count_not_minus_8 :
    validFile fileA.lines = true ∧ fileA.lines.length = 33 ∧
      add_file_name pathA fileA.lines = .ok dfA ∧
      dfA.rows.length = 24 ∧ dfA.rows.length ≠ fileA.lines.length - 8 :=
  ⟨by decide, by decide, rfl, by decide, by decide⟩

set_option maxRecDepth 100000 in
/-- C5 witness: the amended statement evaluated on the 33-line sample
file. -/
theorem parse_valid_file_witness :
    validFile fileA.lines = true ∧
      (∃ df, add_file_name pathA fileA.lines = .ok df ∧
        df.rows.length = fileA.lines.length - 9 ∧
        ∀ r ∈ df.rows, ∃ k, rowHour r = some k ∧ 1 ≤ k ∧ k ≤ 24) :=
  ⟨by decide, parse_valid_file pathA fileA.lines (by decide)⟩

/-- C8: the Dataset `build` returns is the ordered concatenation of the
per-file record sequences — file-discovery order, then intra-file row order
(each row aligned to the concatenated column set) — and every record
carries its originating file's path in the `file_name` column. -/
theorem build_ordered_tagged_concat (fs : FS) (dir : Str) (d : DataFrame)
    (diags : List (Str × Str)) (h : build fs dir = .ok (d, diags)) :
    d.rows = (discover fs dir).flatMap
      (fun f => match add_file_name (joinPath dir f.name) f.lines with
        | .ok df => df.rows.map (reindexRow df.cols d.cols)
        | .error _ => []) ∧
    ∀ f ∈ discover fs dir,
      ∀ df, add_file_name (joinPath dir f.name) f.lines = .ok df →
        ∀ r ∈ df.rows,
          colVal d.cols fileNameCol (reindexRow df.cols d.cols r) =
            some (joinPath dir f.name) := by
  rcases build_ok_inv h with ⟨hc, _⟩
  rcases concatDfs_ok_inv hc with ⟨x, rest, hds, hcols, hrows⟩
  constructor
  · rw [hrows, readAll_fst, flatMap_filterMap]
    congr 1
    funext f
    cases add_file_name (joinPath dir f.name) f.lines <;> rfl
  · intro f hf df hdf r hr
    rcases add_file_name_ok_inv hdf with ⟨df0, hread, hdfeq⟩
    have hlen0 : ∀ r0 ∈ df0.rows, r0.length = df0.cols.length :=
      read_csv_row_length hread
    have hcv : colVal df.cols fileNameCol r = some (joinPath dir f.name) := by
      rw [hdfeq] at hr ⊢
      exact assign_colVal hlen0 r hr
    have hdmem : df ∈ (readAll dir (discover fs dir)).1 := by
      rw [readAll_fst]
      exact List.mem_filterMap.mpr ⟨f, hf, by rw [hdf]; rfl⟩
    have hfn_d : fileNameCol ∈ d.cols := by
      rw [hcols]
      refine mem_dedupFirst.mpr (List.mem_flatten.mpr ⟨df.cols, ?_, ?_⟩)
      · exact List.mem_map_of_mem _ hdmem
      · rw [hdfeq]; exact assign_mem_cols
    exact colVal_reindex hfn_d hcv

def rA0 : List Str := dfA.rows.headD []

set_option maxRecDepth 100000 in
/-- C8 witness: the two-file directory; the first record of file A is
tagged with A's path in the concatenated Dataset. -/
theorem build_ordered_tagged_concat_witness :
    dfAB.rows = (discover fsAB "d".data).flatMap
      (fun f => match add_file_name (joinPath "d".data f.name) f.lines with
        | .ok df => df.rows.map (reindexRow df.cols dfAB.cols)
        | .error _ => []) ∧
    colVal dfAB.cols fileNameCol (reindexRow dfA.cols dfAB.cols rA0) = some pathA :=
  ⟨(build_ordered_tagged_concat fsAB "d".data dfAB diagsAB rfl).1,
   (build_ordered_tagged_concat fsAB "d".data dfAB diagsAB rfl).2
     fileA (by decide) dfA rfl rA0 (by decide)⟩

theorem normalizeCell_idem (c : Option Str) :
    normalizeCell (normalizeCell c) = normalizeCell c := by
  by_cases hc : c = some sentinel
  · simp [normalizeCell, hc]
  · simp [normalizeCell, hc]

/-- C9: `normalize` is idempotent — the sentinel token does not reappear
after the first substitution, so a second pass changes nothing.  (The
operation is modelled from the spec; the notebook never implements it.) -/
theorem normalizeDataset_idem (d : List SpecRecord) :
    normalizeDataset (normalizeDataset d) = normalizeDataset d := by
  induction d with
  | nil => rfl
  | cons r t ih =>
    simp only [normalizeDataset, List.map_cons] at ih ⊢
    rw [ih]
    simp [normalizeCell_idem]

set_option maxRecDepth 100000 in
/-- C10 counterexample: a readable file that already has a `file_name`
column — pandas' `df["file_name"] = path` then overwrites that column's
parsed cells in place instead of appending a new column, so the parsed
values do not all survive. -/
theorem parse_file_name_clash :
    read_csv 8 fileNameClashFile =
      .ok ⟨["a".data, fileNameCol], [["1".data, "orig".data]]⟩ ∧
    add_file_name "p".data fileNameClashFile =
      .ok ⟨["a".data, fileNameCol], [["1".data, "p".data]]⟩ :=
  ⟨rfl, rfl⟩

/-- C10 amended: for every readable input file whose parsed header does not
already contain a `file_name` column, `parse` returns the parsed table
with all columns and cell values unchanged, plus one appended `file_name`
column holding exactly the path argument on every row. -/
theorem parse_appends_file_name (p : Str) (ls : List Str) (df : DataFrame)
    (hread : read_csv 8 ls = .ok df) (hno : fileNameCol ∉ df.cols) :
    add_file_name p ls =
      .ok ⟨df.cols ++ [fileNameCol], df.rows.map (fun r => r ++ [p])⟩ := by
  unfold add_file_name
  rw [hread]
  simp only [Except.map, assignColumn, if_neg hno]

set_option maxRecDepth 100000 in
/-- C10 witness: the amended statement evaluated on a concrete file without
a `file_name` column of its own. -/
theorem parse_appends_file_name_witness :
    read_csv 8 schemaTwoFile = .ok ⟨["a".data, "b".data], [["1".data, "2".data]]⟩ ∧
      fileNameCol ∉ ["a".data, "b".data] ∧
      add_file_name "p".data schemaTwoFile =
        .ok ⟨["a".data, "b".data] ++ [fileNameCol],
             [["1".data, "2".data]].map (fun r => r ++ ["p".data])⟩ :=
  ⟨rfl, by decide,
   parse_appends_file_name "p".data schemaTwoFile
     ⟨["a".data, "b".data], [["1".data, "2".data]]⟩ rfl (by decide)⟩
